import Mathlib

/-!
Verification development for the falkor HTTP functional-testing library.

The definitions below are a shallow embedding of the library's core:
* the asserter adapter (`lib/asserter.js`),
* the option set (`lib/options.js`): header/cookie maps, `getHeaders`,
  the JSON-schema normalization `_fixSchema` and the `validateJson` evaluator,
* the test-case engine (`lib/testcase.js` and the promise-chain variant in
  `lib/falkor.js`): evaluator execution, HTTP error handling, the request
  construction in `run`, and the `then`-continuation chain,
* the test template (`lib/testtemplate.js`): `newTestCase`.

External collaborators (file system reads, `JSON.parse`, the JSON-schema
validator, `new RegExp` compilation, URL parsing) are treated as black-box
parameters, following the spec's component boundaries.  JavaScript objects
are modelled as insertion-ordered association lists (the iteration order of
`for..in` over string keys), and JavaScript truthiness of strings is
explicit (`""` is falsy).
-/

set_option maxHeartbeats 1000000

/-- JSON values as produced by `JSON.parse`, extended with compiled
regular-expression objects, which `Options.prototype._fixSchema` installs in
place of string-valued `pattern` properties. -/
inductive Json where
  | null
  | bool (b : Bool)
  | num (n : Int)
  | str (s : String)
  | arr (elems : List Json)
  | obj (fields : List (String × Json))
  | regexp (source : String)

/-- JavaScript `typeof v === 'object'`: true for `null`, arrays, plain objects
and RegExp objects; false for booleans, numbers and strings. -/
def Json.isObjType : Json → Bool
  | .null => true
  | .arr _ => true
  | .obj _ => true
  | .regexp _ => true
  | _ => false

/-- JavaScript truthiness of a JSON value (`!v` negated). -/
def Json.truthy : Json → Bool
  | .null => false
  | .bool b => b
  | .num n => n != 0
  | .str s => s != ""
  | .arr _ => true
  | .obj _ => true
  | .regexp _ => true

mutual

/-- JavaScript `String(v)` coercion for the values that can appear in a parsed
schema.  Arrays stringify by joining element strings with commas (`null`
elements become empty), objects give `"[object Object]"`. -/
def jsToString : Json → String
  | .null => "null"
  | .bool true => "true"
  | .bool false => "false"
  | .num n => toString n
  | .str s => s
  | .arr xs => String.intercalate "," (jsArrToStrings xs)
  | .obj _ => "[object Object]"
  | .regexp src => "/" ++ src ++ "/"

/-- Element-wise stringification used by array joining. -/
def jsArrToStrings : List Json → List String
  | [] => []
  | .null :: xs => "" :: jsArrToStrings xs
  | x :: xs => jsToString x :: jsArrToStrings xs

end

/-- Lookup in a JavaScript-object-as-association-list (first match). -/
def alistGet {α : Type} : List (String × α) → String → Option α
  | [], _ => none
  | (k, v) :: rest, key => if k = key then some v else alistGet rest key

/-- JavaScript property assignment `o[key] = v` on an insertion-ordered
object: overwrites in place when the key exists, appends otherwise. -/
def alistSet {α : Type} : List (String × α) → String → α → List (String × α)
  | [], key, v => [(key, v)]
  | (k, w) :: rest, key, v =>
      if k = key then (key, v) :: rest else (k, w) :: alistSet rest key v

/-! ## The asserter adapter (`lib/asserter.js`)

`Asserter(callback)` keeps `_errors`, `_logs` and a `_finished` flag.
`fail` and `done` are no-ops once `_finished` is set; otherwise they set the
flag and invoke the completion callback (we count callback invocations in
`cbCount`).  The wrapped native assertions (`ok`, `equal`/`equals`, ...)
catch assertion errors and push them onto `_errors` unconditionally — the
wrapper performs no `_finished` check at call time. -/

structure Asserter where
  errors : List String
  logs : List String
  finished : Bool
  cbCount : Nat

/-- A fresh asserter, as built by the `Asserter` constructor. -/
def Asserter.init : Asserter :=
  { errors := [], logs := [], finished := false, cbCount := 0 }

/-- `Asserter.prototype.fail`: no-op when finished; otherwise records the
error, marks finished, and fires the completion callback. -/
def Asserter.fail (a : Asserter) (message : String) : Asserter :=
  if a.finished then a
  else { a with finished := true, errors := a.errors ++ [message], cbCount := a.cbCount + 1 }

/-- `Asserter.prototype.done`: no-op when finished; otherwise marks finished
and fires the completion callback. -/
def Asserter.done (a : Asserter) : Asserter :=
  if a.finished then a
  else { a with finished := true, cbCount := a.cbCount + 1 }

/-- A wrapped native assertion (`_wrapNativeAssert`): the `try/catch` pushes
the assertion error when the assertion does not hold, with no finished
check. -/
def Asserter.assertRecord (a : Asserter) (pass : Bool) (message : String) : Asserter :=
  if pass then a else { a with errors := a.errors ++ [message] }

/-- `Asserter.prototype.log` pushes onto `_logs`. -/
def Asserter.pushLog (a : Asserter) (line : String) : Asserter :=
  { a with logs := a.logs ++ [line] }

/-- One call an evaluator can make on the asserter surface. -/
inductive ACall where
  | failCall (message : String)
  | assertCall (pass : Bool) (message : String)
  | logCall (line : String)

/-- Dispatch of one asserter call. -/
def Asserter.exec (a : Asserter) : ACall → Asserter
  | .failCall m => a.fail m
  | .assertCall p m => a.assertRecord p m
  | .logCall m => a.pushLog m

/-- Running a sequence of asserter calls in order. -/
def Asserter.runCalls (a : Asserter) (calls : List ACall) : Asserter :=
  calls.foldl Asserter.exec a

/-! ## The response and the evaluator engine (`lib/testcase.js`) -/

/-- A buffered HTTP response as seen by evaluators: `res.body` is set only
when a nonempty body was accumulated (`if (data) res.body = data`). -/
structure Response where
  statusCode : Nat
  headers : List (String × String)
  body : Option String

/-- An evaluator: a function called as `evaluator.call(this, this._asserter, res)`;
it transforms the asserter state given the response. -/
abbrev Evaluator := Asserter → Response → Asserter

/-- An evaluator whose interaction with the asserter is a sequence of calls on
the asserter surface, determined by the response (the behavior class of all
the built-in evaluators). -/
def scriptEval (script : Response → List ACall) : Evaluator :=
  fun a res => a.runCalls (script res)

/-- Observable engine events: the i-th registered evaluator is invoked; the
engine calls `done` on the asserter. -/
inductive EngineEvent where
  | evalCall (i : Nat)
  | doneSignal
deriving DecidableEq

/-- `TestCase.prototype._finalize` (success path, `lib/testcase.js` lines
157–166): run every registered evaluator in insertion order against the
asserter and the response, then call `done` on the asserter.  The returned
event list records the order of engine actions. -/
def finalize (evals : List Evaluator) (a : Asserter) (res : Response) :
    Asserter × List EngineEvent :=
  let r := evals.enum.foldl
    (fun acc p => (p.2 acc.1 res, acc.2 ++ [EngineEvent.evalCall p.1])) (a, [])
  (r.1.done, r.2 ++ [EngineEvent.doneSignal])

/-- `TestCase.prototype.run` dispatch of the two response outcomes: a network
error goes to `_handleHttpError` (`lib/testcase.js` lines 148–151), which
fails the test with a message naming the URL and the error, then calls
`done`; a successful buffered response goes to `_finalize`. -/
def processOutcome (url : String) (evals : List Evaluator)
    (outcome : Except String Response) (a : Asserter) : Asserter × List EngineEvent :=
  match outcome with
  | .error emsg => ((a.fail ("Request for " ++ url ++ " failed. " ++ emsg)).done, [])
  | .ok res => finalize evals a res

/-- The callback-count invariant: starting from a fresh asserter, the
completion callback has fired precisely when the asserter is finished. -/
def cbInv (a : Asserter) : Prop :=
  a.cbCount = (if a.finished then 1 else 0)


/-! ## Schema normalization (`Options.prototype._fixSchema`, `lib/options.js` lines 466–489)

The recursion walks every object-valued property.  Outside `properties`
maps, a `pattern` value is compiled with `new RegExp` (failure aborts with a
single failure message) and a `required` value is translated by assigning
`schema['optional'] = !schema['required']`.  Descending into a `properties`
map disables the special keys for exactly one level.  `new RegExp` is the
black-box compiler parameter `C` (`none` models a SyntaxError; `some r`
gives the compiled source). -/

/-- Building `new RegExp(schema[key])`: RegExp values are copied, other values
are coerced to a string and compiled.  The error message is the one
`_fixSchema` passes to `test.fail`. -/
def compilePattern (C : String → Option String) (v : Json) : Except String Json :=
  match v with
  | .regexp src => .ok (.regexp src)
  | v =>
    match C (jsToString v) with
    | some r => .ok (.regexp r)
    | none => .error ("Unable to create a regular expression for pattern " ++ jsToString v)

mutual

/-- `_fixSchema` on one value.  Only `typeof v === 'object'` values have
enumerable structure: plain objects iterate their fields, arrays iterate
their elements (index keys are never the special keys, and the
`properties`-descent flag is always false below an index), and `null` /
RegExp values have nothing to iterate. -/
def fixJson (C : String → Option String) (ignoreSpecial : Bool) : Json → Except String Json
  | .obj fields => do
      let fields' ← fixEntries C ignoreSpecial fields fields false
      return Json.obj fields'
  | .arr xs => do
      let xs' ← fixList C xs
      return Json.arr xs'
  | v => .ok v

/-- The `for (var key in schema)` loop over an object: `entries` are the
key/value pairs as of loop start, `cur` is the object being mutated in
place, and `reqSeen` records whether a `required` rewrite has already
assigned a boolean to `optional` (so that a later visit of the `optional`
key sees a non-object and does nothing). -/
def fixEntries (C : String → Option String) (ignoreSpecial : Bool) :
    List (String × Json) → List (String × Json) → Bool →
    Except String (List (String × Json))
  | [], cur, _ => .ok cur
  | (k, v) :: rest, cur, reqSeen =>
    if ignoreSpecial = false ∧ k = "pattern" then
      match compilePattern C v with
      | .error e => .error e
      | .ok r => fixEntries C ignoreSpecial rest (alistSet cur k r) reqSeen
    else if ignoreSpecial = false ∧ k = "required" then
      fixEntries C ignoreSpecial rest (alistSet cur "optional" (.bool (!v.truthy))) true
    else if v.isObjType = true then
      if k = "optional" ∧ reqSeen = true then
        fixEntries C ignoreSpecial rest cur reqSeen
      else
        match fixJson C (if ignoreSpecial = false ∧ k = "properties" then true else false) v with
        | .error e => .error e
        | .ok v' => fixEntries C ignoreSpecial rest (alistSet cur k v') reqSeen
    else
      fixEntries C ignoreSpecial rest cur reqSeen

/-- The `for (var key in schema)` loop when the schema value is an array:
object-typed elements are recursed into (with the special keys active,
since an index key is never `properties`), other elements are untouched. -/
def fixList (C : String → Option String) : List Json → Except String (List Json)
  | [] => .ok []
  | x :: xs =>
    if x.isObjType = true then do
      let x' ← fixJson C false x
      let xs' ← fixList C xs
      return x' :: xs'
    else do
      let xs' ← fixList C xs
      return x :: xs'

end

/-! ## The option set (`lib/options.js`) -/

/-- The store behind `this._cookies`.  The `Options` constructor creates a
plain object (`{}`); the old monolithic `falkor.js` test case used an array
(`[]`) carrying the cookies as named properties.  Both enumerate their
entries with `for..in`. -/
inductive CookieStore where
  | objStore (entries : List (String × String))
  | arrStore (entries : List (String × String))

def CookieStore.entries : CookieStore → List (String × String)
  | .objStore es => es
  | .arrStore es => es

def CookieStore.setCookie : CookieStore → String → String → CookieStore
  | .objStore es, n, v => .objStore (alistSet es n v)
  | .arrStore es, n, v => .arrStore (alistSet es n v)

/-- JavaScript method dispatch for `this._cookies.concat()`: an array has
`Array.prototype.concat`, which copies index properties only (named
properties used as the cookie map are dropped); a plain object has no
`concat` method, so the call throws a TypeError. -/
def CookieStore.concatCall : CookieStore → Except String CookieStore
  | .arrStore _ => .ok (.arrStore [])
  | .objStore _ => .error "TypeError: this._cookies.concat is not a function"

/-- JavaScript truthiness of a possibly-absent string property (an absent
property and the empty string are both falsy). -/
def jsTruthyStr : Option String → Bool
  | none => false
  | some s => s != ""

/-- The option set state built by the `Options` constructor and mutated by the
`with*` builders.  Header values are modelled as strings (the numeric
`Content-Length` set by `withPayload` is stored in decimal). -/
structure Options where
  headers : List (String × String)
  cookies : CookieStore
  payload : Option String
  httpMethod : String
  xssiPrefix : String
  evaluators : List Evaluator
  jsonSchema : List (String × Json)

/-- The `Options` constructor defaults. -/
def Options.init : Options :=
  { headers := []
  , cookies := .objStore []
  , payload := none
  , httpMethod := "GET"
  , xssiPrefix := ""
  , evaluators := []
  , jsonSchema := [] }

/-- `Options.prototype.withMethod`: uppercases and stores. -/
def Options.withMethod (o : Options) (m : String) : Options :=
  { o with httpMethod := m.toUpper }

/-- `Options.prototype.withHeader`. -/
def Options.withHeader (o : Options) (k v : String) : Options :=
  { o with headers := alistSet o.headers k v }

/-- `Options.prototype.withCookie`. -/
def Options.withCookie (o : Options) (n v : String) : Options :=
  { o with cookies := o.cookies.setCookie n v }

/-- `Options.prototype.withPayload`: stores the payload and sets
`Content-Length` to its length. -/
def Options.withPayload (o : Options) (p : String) : Options :=
  { o with payload := some p
         , headers := alistSet o.headers "Content-Length" (toString p.length) }

/-- `Options.prototype.evaluate`: appends to the evaluator list. -/
def Options.evaluate (o : Options) (fn : Evaluator) : Options :=
  { o with evaluators := o.evaluators ++ [fn] }

/-- `Options.prototype.getHeaders` (`lib/options.js` lines 415–429): a fresh
map of the explicit headers; when the `Cookie` entry is falsy (absent or the
empty string) and at least one cookie exists, a `Cookie` header is
synthesized by joining `name=value` pairs with `"; "`. -/
def Options.getHeaders (o : Options) : List (String × String) :=
  if jsTruthyStr (alistGet o.headers "Cookie") then o.headers
  else
    let cookieStrs := o.cookies.entries.map (fun p => p.1 ++ "=" ++ p.2)
    if cookieStrs.isEmpty then o.headers
    else alistSet o.headers "Cookie" (String.intercalate "; " cookieStrs)

/-! ## The `validateJson` evaluator (`lib/options.js` lines 353–409) -/

/-- One violation reported by the JSON-schema validator. -/
structure VErr where
  path : String
  message : String

/-- The single failure message built from one or more validator violations:
a header line and one entry per violation, joined by single spaces
(`errorMessage.join(' ')`). -/
def validationFailureMessage (errs : List VErr) : String :=
  String.intercalate " " ("Invalid response body. JSON Schema validation failed." ::
    errs.map (fun e => "  Error @ /" ++ e.path ++ ": " ++ e.message))

/-- JavaScript falsiness of `res.body` (absent or empty). -/
def jsFalsyBody : Option String → Bool
  | none => true
  | some s => s == ""

/-- The evaluator registered by `Options.prototype.validateJson`.  External
collaborators are parameters: `fileRead` is the result of
`fs.readFileSync(schemaPath)` (`none` = throw), `parseJson` is `JSON.parse`
(the error carries `e.message`), `C` compiles regular expressions, and
`validate` is the JSON-schema validator seeded with the registered named
schemas.  `xp` is the configured XSSI prefix string. -/
def validateJsonEval
    (fileRead : Option String)
    (parseJson : String → Except String Json)
    (C : String → Option String)
    (validate : List (String × Json) → Json → Json → List VErr)
    (jsonSchemaMap : List (String × Json))
    (xp : String)
    (schemaPath : String) : Evaluator := fun test res =>
  match fileRead with
  | none => test.fail ("Invalid JSON Schema. Unable to open file: " ++ schemaPath)
  | some schemaFile =>
    match parseJson schemaFile with
    | .error e => test.fail ("Invalid JSON Schema. JSON parsing failed.  " ++ e)
    | .ok schemaRaw =>
      match fixJson C false schemaRaw with
      | .error msg => test.fail msg
      | .ok schema =>
        if jsFalsyBody res.body then
          test.fail "Expected response body for JSON validation."
        else
          let bodyStr := res.body.getD ""
          let bodyStr := if xp != "" then bodyStr.drop xp.length else bodyStr
          match parseJson bodyStr with
          | .error e => test.fail ("Invalid response body. JSON parsing failed.  " ++ e)
          | .ok json =>
            let errs := validate jsonSchemaMap json schema
            if errs.isEmpty then test else test.fail (validationFailureMessage errs)

/-! ## The test case and its `run` method (`lib/testcase.js` lines 100–128) -/

/-- The result of `urlLib.parse` on the (base-resolved) URL string. -/
structure ParsedUrl where
  protocol : String
  hostname : Option String
  port : Option Nat
  path : Option String

/-- A test case: its URL (already parsed, URL-string parsing being Node's
`url` library), its option set, and the optionally bound asserter. -/
structure TestCase where
  url : ParsedUrl
  urlText : String
  opts : Options
  asserter : Option Asserter

/-- The request options handed to the HTTP library, plus which library
(`https` iff the resolved port equals 443) performs the request. -/
structure RequestOptions where
  host : Option String
  port : Nat
  path : String
  method : String
  headers : List (String × String)
  useHttps : Bool

/-- `TestCase.prototype.run`: throws synchronously when no asserter is bound
(modelled as `.error`), otherwise builds the request options — the port
defaults to 443 for the `https:` scheme and 80 otherwise, a zero
`Content-Length` is added for payload-less requests — and dispatches via the
library chosen by `options.port == 443`. -/
def TestCase.run (tc : TestCase) : Except String RequestOptions :=
  match tc.asserter with
  | none => .error "No asserter object has been configured"
  | some _ =>
    let url := tc.url
    let port := match url.port with
      | some p => p
      | none => if url.protocol = "https:" then 443 else 80
    let headers := tc.opts.getHeaders
    let headers :=
      if jsTruthyStr (alistGet headers "Content-Length") = false
          ∧ jsTruthyStr tc.opts.payload = false then
        alistSet headers "Content-Length" "0"
      else headers
    .ok { host := url.hostname
        , port := port
        , path := url.path.getD "/"
        , method := tc.opts.httpMethod
        , headers := headers
        , useHttps := port = 443 }

/-! ## The test template (`lib/testtemplate.js` lines 39–50) -/

/-- `TestTemplate.prototype.newTestCase`: builds a fresh `TestCase` (whose
`Options` constructor state is the default) and assigns the template's
headers (via `getHeaders`), cookies (via `this._cookies.concat()` — a method
call on the cookie store), payload, method, XSSI prefix and evaluator list.
The cookie step is a JavaScript method call that throws when the store is a
plain object. -/
def newTestCase (t : Options) (u : ParsedUrl) (urlText : String) : Except String TestCase := do
  let headers := t.getHeaders
  let cookies ← t.cookies.concatCall
  return { url := u
         , urlText := urlText
         , asserter := none
         , opts := { headers := headers
                   , cookies := cookies
                   , payload := t.payload
                   , httpMethod := t.httpMethod
                   , xssiPrefix := t.xssiPrefix
                   , evaluators := t.evaluators
                   , jsonSchema := Options.init.jsonSchema } }

/-! ## The continuation chain (`lib/falkor.js` lines 1080–1094 and 1232–1274) -/

/-- A value thrown by, or rejecting the deferred value returned from, a
continuation: either an Error object (whose `stack` V8 renders as
`"Error: " ++ message` followed by the stack frames) or a plain string. -/
inductive JsThrown where
  | errObj (message : String) (stackSuffix : String)
  | strVal (s : String)

/-- The failure text `(err && err.stack) || err` used by
`TestCase.prototype.done` when the `_run` promise rejects. -/
def JsThrown.failText : JsThrown → String
  | .errObj m suf => "Error: " ++ m ++ suf
  | .strVal s => s

/-- The underlying message of the thrown/rejected value. -/
def JsThrown.messageText : JsThrown → String
  | .errObj m _ => m
  | .strVal s => s

/-- JavaScript string coercion of the thrown value, as used by the
`self._log('ERROR ' + err)` line. -/
def JsThrown.coerceString : JsThrown → String
  | .errObj m _ => "Error: " ++ m
  | .strVal s => s

/-- What a `then`-continuation does with the value it receives: return a
plain value, return a promise (which resolves or rejects), return a nested
test case or its nodeunit-function form (which the engine runs with the
outer asserter, resolving to the nested result), or throw. -/
inductive ContResult (V : Type) where
  | value (v : V)
  | promise (outcome : Except JsThrown V)
  | nestedTest (outcome : Except JsThrown V)
  | thrown (e : JsThrown)

/-- One `promise.then` step of the continuation loop in
`TestCase.prototype._finalize` (falkor.js lines 1254–1266): a rejected
promise skips the callback and propagates; otherwise the continuation is
applied to the previous step's value and its result resolved. -/
def contStep {V : Type} (acc : Except JsThrown V) (c : V → ContResult V) :
    Except JsThrown V :=
  match acc with
  | .error e => .error e
  | .ok v =>
    match c v with
    | .value w => .ok w
    | .promise outcome => outcome
    | .nestedTest outcome => outcome
    | .thrown e => .error e

/-- The whole chained-continuation phase: the first continuation receives the
initial value (the response), each later one the previous result. -/
def runChain {V : Type} (conts : List (V → ContResult V)) (init : V) :
    Except JsThrown V :=
  conts.foldl contStep (.ok init)

/-- `TestCase.prototype.done` (falkor.js lines 1080–1094): the failure
handler of the `_run` promise logs the error and records one failure with
`(err && err.stack) || err`; the `fin` handler always calls `done` on the
asserter. -/
def settleDone {V : Type} (outcome : Except JsThrown V) (test : Asserter) : Asserter :=
  match outcome with
  | .ok _ => test.done
  | .error e => (((test.pushLog ("ERROR " ++ e.coerceString)).fail e.failText)).done


/-! ## Concrete fixtures used to exercise the theorems on explicit inputs -/

/-- A concrete buffered response. -/
def wRes : Response := { statusCode := 200, headers := [], body := some "hello" }

/-- Two concrete evaluator scripts: the first fails, the second records a
failed boolean assertion. -/
def wScripts : List (Response → List ACall) :=
  [fun _ => [ACall.failCall "boom"], fun _ => [ACall.assertCall false "neq"]]

/-- Three concrete continuations; the second one throws. -/
def wConts : List (Nat → ContResult Nat) :=
  [fun n => ContResult.value (n + 1), fun _ => ContResult.thrown (.strVal "boom"),
    fun n => ContResult.value n]

/-- A concrete regular-expression compiler: the pattern `[` is a syntax
error, everything else compiles to itself. -/
def wCompile : String → Option String := fun s => if s = "[" then none else some s

/-- A concrete `JSON.parse`: the text `JSONBODY` parses to the empty object,
everything else raises. -/
def wParse : String → Except String Json :=
  fun s => if s = "JSONBODY" then .ok (Json.obj []) else .error "Unexpected token"

/-- A concrete validator reporting one violation. -/
def wValidate : List (String × Json) → Json → Json → List VErr :=
  fun _ _ _ => [{ path := "account.id", message := "Property is required" }]

/-- A concrete response whose body carries an XSSI prefix before the JSON. -/
def wRes5 : Response := { statusCode := 200, headers := [], body := some ("P;" ++ "JSONBODY") }

/-- A concrete parsed URL. -/
def wUrl : ParsedUrl :=
  { protocol := "http:", hostname := some "falkor.fake", port := none, path := some "/templated" }

/-- A concrete parsed https URL with an explicit non-443 port. -/
def wUrlHttps : ParsedUrl :=
  { protocol := "https:", hostname := some "falkor.fake", port := some 8443, path := some "/x" }

/-- A test case with no asserter bound. -/
def wTCnoAssert : TestCase :=
  { url := wUrl, urlText := "http://falkor.fake/templated", opts := Options.init,
    asserter := none }

/-- A test case for the https url, with an asserter bound. -/
def wTChttps : TestCase :=
  { url := wUrlHttps, urlText := "https://falkor.fake:8443/x", opts := Options.init,
    asserter := some Asserter.init }

/-- Concrete request options. -/
def wReq : RequestOptions :=
  { host := none, port := 80, path := "/", method := "GET", headers := [], useHttps := false }

/-- An option set with one cookie and no explicit headers. -/
def wCookieOpts : Options := Options.init.withCookie "n" "v"

/-! ## Helper lemmas -/

theorem alistGet_alistSet_self {α : Type} (l : List (String × α)) (key : String) (v : α) :
    alistGet (alistSet l key v) key = some v := by
  induction l with
  | nil => simp [alistGet, alistSet]
  | cons hd tl ih =>
    obtain ⟨k, w⟩ := hd
    by_cases h : k = key
    · simp [alistGet, alistSet, h]
    · simp [alistGet, alistSet, h, ih]

theorem alistGet_alistSet_ne {α : Type} (l : List (String × α)) (key key' : String) (v : α)
    (h : key ≠ key') : alistGet (alistSet l key v) key' = alistGet l key' := by
  induction l with
  | nil => simp [alistGet, alistSet, h]
  | cons hd tl ih =>
    obtain ⟨k, w⟩ := hd
    by_cases hk : k = key
    · subst hk
      simp [alistGet, alistSet, h]
    · simp only [alistSet, if_neg hk]
      by_cases hk' : k = key'
      · simp [alistGet, hk']
      · simp [alistGet, hk', ih]

/-- Membership of a pair in an association list with nodup keys determines the
lookup result. -/
theorem alistGet_of_mem {α : Type} (l : List (String × α)) (k : String) (v : α)
    (hmem : (k, v) ∈ l) (hnd : (l.map Prod.fst).Nodup) : alistGet l k = some v := by
  induction l with
  | nil => cases hmem
  | cons hd tl ih =>
    obtain ⟨k', w⟩ := hd
    simp only [List.map_cons, List.nodup_cons] at hnd
    rcases List.mem_cons.mp hmem with h | h
    · injection h with h1 h2
      subst h1
      subst h2
      simp [alistGet]
    · have hk : k' ≠ k := by
        intro hkk
        exact hnd.1 (List.mem_map.mpr ⟨(k, v), h, hkk.symm⟩)
      simp [alistGet, hk, ih h hnd.2]

theorem finalize_foldl_trace (l : List (Nat × Evaluator)) (a : Asserter)
    (tr : List EngineEvent) (res : Response) :
    (l.foldl (fun acc p => (p.2 acc.1 res, acc.2 ++ [EngineEvent.evalCall p.1])) (a, tr)).2
      = tr ++ l.map (fun p => EngineEvent.evalCall p.1) := by
  induction l generalizing a tr with
  | nil => simp
  | cons hd tl ih => simp [List.foldl_cons, ih]

theorem finalize_foldl_state (l : List (Nat × Evaluator)) (a : Asserter)
    (tr : List EngineEvent) (res : Response) :
    (l.foldl (fun acc p => (p.2 acc.1 res, acc.2 ++ [EngineEvent.evalCall p.1])) (a, tr)).1
      = l.foldl (fun s p => p.2 s res) a := by
  induction l generalizing a tr with
  | nil => rfl
  | cons hd tl ih => simp [List.foldl_cons, ih]

theorem enumFrom_foldl_snd (l : List Evaluator) (n : Nat) (a : Asserter) (res : Response) :
    (List.enumFrom n l).foldl (fun s p => p.2 s res) a
      = l.foldl (fun s e => e s res) a := by
  induction l generalizing n a with
  | nil => rfl
  | cons hd tl ih => simp [List.enumFrom, List.foldl_cons, ih]

/-- The engine's event trace: every evaluator is invoked exactly once, in
registration order, and the done signal comes after the last one. -/
theorem finalize_trace (evals : List Evaluator) (a : Asserter) (res : Response) :
    (finalize evals a res).2
      = (List.range evals.length).map EngineEvent.evalCall ++ [EngineEvent.doneSignal] := by
  unfold finalize
  simp only [finalize_foldl_trace, List.nil_append]
  congr 1
  rw [← List.enum_map_fst evals, List.map_map]
  rfl

/-- The engine's final asserter state: the sequential composition of the
evaluator effects, followed by `done`. -/
theorem finalize_state (evals : List Evaluator) (a : Asserter) (res : Response) :
    (finalize evals a res).1
      = (evals.foldl (fun s e => e s res) a).done := by
  unfold finalize
  simp only [finalize_foldl_state]
  rw [show evals.enum = List.enumFrom 0 evals from rfl, enumFrom_foldl_snd]

theorem cbInv_exec (a : Asserter) (c : ACall) (h : cbInv a) : cbInv (a.exec c) := by
  cases c with
  | failCall m =>
    by_cases hf : a.finished <;>
      simp [cbInv, Asserter.exec, Asserter.fail, hf, h] at h ⊢ <;> simp [h]
  | assertCall p m =>
    by_cases hp : p <;> simp [cbInv, Asserter.exec, Asserter.assertRecord, hp, h] at h ⊢ <;>
      simp [h]
  | logCall m => simpa [cbInv, Asserter.exec, Asserter.pushLog] using h

theorem cbInv_runCalls (a : Asserter) (calls : List ACall) (h : cbInv a) :
    cbInv (a.runCalls calls) := by
  induction calls generalizing a with
  | nil => exact h
  | cons c cs ih => exact ih _ (cbInv_exec a c h)

theorem cbInv_done (a : Asserter) (h : cbInv a) : (a.done).cbCount = 1 := by
  by_cases hf : a.finished <;> simp [cbInv, Asserter.done, hf] at h ⊢ <;> omega

theorem alistGet_eq_none {α : Type} (l : List (String × α)) (k : String)
    (h : k ∉ l.map Prod.fst) : alistGet l k = none := by
  induction l with
  | nil => rfl
  | cons hd tl ih =>
    obtain ⟨k', v⟩ := hd
    simp only [List.map_cons, List.mem_cons, not_or] at h
    have hne : ¬ k' = k := fun hkk => h.1 hkk.symm
    simp [alistGet, hne, ih h.2]

theorem fixJson_obj_ok (C : String → Option String) (ign : Bool)
    (fields : List (String × Json)) (j : Json)
    (h : fixJson C ign (Json.obj fields) = .ok j) :
    ∃ out, j = Json.obj out ∧ fixEntries C ign fields fields false = .ok out := by
  cases hfe : fixEntries C ign fields fields false with
  | error e =>
    rw [fixJson, hfe] at h
    cases h
  | ok out =>
    rw [fixJson, hfe] at h
    cases h
    exact ⟨out, rfl, rfl⟩

/-- Keys that no step of the `_fixSchema` loop assigns are preserved: every
assignment targets either the visited key itself or the `optional` key
(after a `required` rewrite, which needs the special keys active). -/
theorem fixEntries_get_preserved (C : String → Option String) (ign : Bool)
    (entries : List (String × Json)) (k : String) :
    ∀ (cur final : List (String × Json)) (req : Bool),
    fixEntries C ign entries cur req = .ok final →
    k ∉ entries.map Prod.fst →
    (k = "optional" → ign = true ∨ "required" ∉ entries.map Prod.fst) →
    alistGet final k = alistGet cur k := by
  induction entries with
  | nil =>
    intro cur final req h _ _
    rw [fixEntries] at h
    cases h
    rfl
  | cons hd rest ih =>
    obtain ⟨k', v⟩ := hd
    intro cur final req h hk hopt
    simp only [List.map_cons, List.mem_cons, not_or] at hk
    obtain ⟨hkk', hkrest⟩ := hk
    have hopt' : k = "optional" → ign = true ∨ "required" ∉ rest.map Prod.fst := by
      intro ho
      rcases hopt ho with hi | hr
      · exact Or.inl hi
      · simp only [List.map_cons, List.mem_cons, not_or] at hr
        exact Or.inr hr.2
    rw [fixEntries] at h
    by_cases hcp : ign = false ∧ k' = "pattern"
    · rw [if_pos hcp] at h
      cases hcpv : compilePattern C v with
      | error e => rw [hcpv] at h; cases h
      | ok r =>
        rw [hcpv] at h
        rw [ih _ _ _ h hkrest hopt']
        exact alistGet_alistSet_ne _ _ _ _ (fun hek => hkk' hek.symm)
    · rw [if_neg hcp] at h
      by_cases hcr : ign = false ∧ k' = "required"
      · rw [if_pos hcr] at h
        have hko : k ≠ "optional" := by
          intro hko
          rcases hopt hko with hi | hr
          · rw [hcr.1] at hi; cases hi
          · exact hr (by simp [hcr.2.symm])
        rw [ih _ _ _ h hkrest hopt']
        exact alistGet_alistSet_ne _ _ _ _ (fun hek => hko hek.symm)
      · rw [if_neg hcr] at h
        by_cases hobj : v.isObjType = true
        · rw [if_pos hobj] at h
          by_cases hskip : k' = "optional" ∧ req = true
          · rw [if_pos hskip] at h
            exact ih _ _ _ h hkrest hopt'
          · rw [if_neg hskip] at h
            cases hfix : fixJson C (if ign = false ∧ k' = "properties" then true else false) v with
            | error e => rw [hfix] at h; cases h
            | ok v' =>
              rw [hfix] at h
              rw [ih _ _ _ h hkrest hopt']
              exact alistGet_alistSet_ne _ _ _ _ (fun hek => hkk' hek.symm)
        · rw [if_neg hobj] at h
          exact ih _ _ _ h hkrest hopt'

/-- An accepted loop step leaves a successful run of the remaining entries. -/
theorem fixEntries_cons_ok (C : String → Option String) (ign : Bool) (k' : String)
    (v : Json) (rest cur : List (String × Json)) (req : Bool)
    (final : List (String × Json))
    (h : fixEntries C ign ((k', v) :: rest) cur req = .ok final) :
    ∃ cur' req', fixEntries C ign rest cur' req' = .ok final := by
  rw [fixEntries] at h
  by_cases hcp : ign = false ∧ k' = "pattern"
  · rw [if_pos hcp] at h
    cases hcpv : compilePattern C v with
    | error e => rw [hcpv] at h; cases h
    | ok r => rw [hcpv] at h; exact ⟨_, _, h⟩
  · rw [if_neg hcp] at h
    by_cases hcr : ign = false ∧ k' = "required"
    · rw [if_pos hcr] at h; exact ⟨_, _, h⟩
    · rw [if_neg hcr] at h
      by_cases hobj : v.isObjType = true
      · rw [if_pos hobj] at h
        by_cases hskip : k' = "optional" ∧ req = true
        · rw [if_pos hskip] at h; exact ⟨_, _, h⟩
        · rw [if_neg hskip] at h
          cases hfix : fixJson C (if ign = false ∧ k' = "properties" then true else false) v with
          | error e => rw [hfix] at h; cases h
          | ok v' => rw [hfix] at h; exact ⟨_, _, h⟩
      · rw [if_neg hobj] at h; exact ⟨_, _, h⟩

/-- With the special keys disabled no step changes `reqSeen`, and an accepted
step leaves a successful run of the remaining entries at the same flag. -/
theorem fixEntries_true_cons_ok (C : String → Option String) (k' : String)
    (v : Json) (rest cur : List (String × Json)) (final : List (String × Json))
    (h : fixEntries C true ((k', v) :: rest) cur false = .ok final) :
    ∃ cur', fixEntries C true rest cur' false = .ok final := by
  rw [fixEntries] at h
  rw [if_neg (by simp), if_neg (by simp)] at h
  by_cases hobj : v.isObjType = true
  · rw [if_pos hobj, if_neg (by simp)] at h
    cases hfix : fixJson C (if True = False ∧ k' = "properties" then true else false) v with
    | error e =>
      rw [show (if true = false ∧ k' = "properties" then true else false) = false from by simp] at h
      rw [show (if True = False ∧ k' = "properties" then true else false) = false from by simp] at hfix
      rw [hfix] at h
      cases h
    | ok v' =>
      rw [show (if true = false ∧ k' = "properties" then true else false) = false from by simp] at h
      rw [show (if True = False ∧ k' = "properties" then true else false) = false from by simp] at hfix
      rw [hfix] at h
      exact ⟨_, h⟩
  · rw [if_neg hobj] at h
    exact ⟨_, h⟩

/-- After a `required` rewrite has assigned a boolean to `optional`, and no
further `required` key remains, the `optional` entry is stable for the rest
of the loop. -/
theorem fixEntries_optional_stable (C : String → Option String) (ign : Bool)
    (entries : List (String × Json)) :
    ∀ cur final, fixEntries C ign entries cur true = .ok final →
    "required" ∉ entries.map Prod.fst →
    alistGet final "optional" = alistGet cur "optional" := by
  induction entries with
  | nil =>
    intro cur final h _
    rw [fixEntries] at h
    cases h
    rfl
  | cons hd rest ih =>
    obtain ⟨k', v⟩ := hd
    intro cur final h hreq
    simp only [List.map_cons, List.mem_cons, not_or] at hreq
    rw [fixEntries] at h
    by_cases hcp : ign = false ∧ k' = "pattern"
    · rw [if_pos hcp] at h
      cases hcpv : compilePattern C v with
      | error e => rw [hcpv] at h; cases h
      | ok r =>
        rw [hcpv] at h
        rw [ih _ _ h hreq.2]
        refine alistGet_alistSet_ne _ _ _ _ ?_
        rw [hcp.2]
        decide
    · rw [if_neg hcp] at h
      have hcr : ¬(ign = false ∧ k' = "required") := by
        rintro ⟨_, hk⟩
        exact hreq.1 hk.symm
      rw [if_neg hcr] at h
      by_cases hobj : v.isObjType = true
      · rw [if_pos hobj] at h
        by_cases hskip : k' = "optional" ∧ True
        · rw [if_pos (by simpa using hskip)] at h
          exact ih _ _ h hreq.2
        · rw [if_neg (by simpa using hskip)] at h
          cases hfix : fixJson C (if ign = false ∧ k' = "properties" then true else false) v with
          | error e => rw [hfix] at h; cases h
          | ok v' =>
            rw [hfix] at h
            rw [ih _ _ h hreq.2]
            refine alistGet_alistSet_ne _ _ _ _ ?_
            intro hko
            exact hskip ⟨hko, trivial⟩
      · rw [if_neg hobj] at h
        exact ih _ _ h hreq.2

/-- Reaching a `required` entry assigns `optional := !required`, and the
assignment survives the remaining entries. -/
theorem fixEntries_required_mem (C : String → Option String)
    (entries : List (String × Json)) :
    ∀ cur final req b, fixEntries C false entries cur req = .ok final →
    (entries.map Prod.fst).Nodup →
    ("required", Json.bool b) ∈ entries →
    alistGet final "optional" = some (.bool (!b)) := by
  induction entries with
  | nil => intro _ _ _ _ _ _ hmem; cases hmem
  | cons hd rest ih =>
    obtain ⟨k', v⟩ := hd
    intro cur final req b h hnd hmem
    simp only [List.map_cons, List.nodup_cons] at hnd
    rcases List.mem_cons.mp hmem with hh | hh
    · injection hh with h1 h2
      subst h1
      subst h2
      rw [fixEntries] at h
      rw [if_neg (by rintro ⟨_, hk⟩; exact absurd hk (by decide))] at h
      rw [if_pos ⟨rfl, rfl⟩] at h
      have hstable := fixEntries_optional_stable C false rest _ _ h
        (by intro hr; exact hnd.1 hr)
      rw [hstable, alistGet_alistSet_self]
      rfl
    · obtain ⟨cur', req', h'⟩ := fixEntries_cons_ok C false k' v rest cur req final h
      exact ih cur' final req' b h' hnd.2 hh

/-- Reaching a string-valued `pattern` entry whose compilation succeeds
installs the compiled expression, and the assignment survives the remaining
entries. -/
theorem fixEntries_pattern_mem (C : String → Option String)
    (entries : List (String × Json)) :
    ∀ cur final req s r, fixEntries C false entries cur req = .ok final →
    (entries.map Prod.fst).Nodup →
    ("pattern", Json.str s) ∈ entries →
    C s = some r →
    alistGet final "pattern" = some (.regexp r) := by
  induction entries with
  | nil => intro _ _ _ _ _ _ _ hmem; cases hmem
  | cons hd rest ih =>
    obtain ⟨k', v⟩ := hd
    intro cur final req s r h hnd hmem hC
    simp only [List.map_cons, List.nodup_cons] at hnd
    rcases List.mem_cons.mp hmem with hh | hh
    · injection hh with h1 h2
      subst h1
      subst h2
      rw [fixEntries] at h
      rw [if_pos ⟨rfl, rfl⟩] at h
      rw [show compilePattern C (Json.str s) = .ok (.regexp r) from by
        simp [compilePattern, jsToString, hC]] at h
      have hpres := fixEntries_get_preserved C false rest "pattern" _ _ _ h
        (by intro hr; exact hnd.1 hr)
        (by intro hpo; exact absurd hpo (by decide))
      rw [hpres, alistGet_alistSet_self]
    · obtain ⟨cur', req', h'⟩ := fixEntries_cons_ok C false k' v rest cur req final h
      exact ih cur' final req' s r h' hnd.2 hh hC

/-- Reaching an object-valued entry under a non-special key recurses into the
value (entering `properties` disables the special keys one level down) and
stores the normalized value. -/
theorem fixEntries_obj_entry (C : String → Option String)
    (entries : List (String × Json)) :
    ∀ cur final req k v, fixEntries C false entries cur req = .ok final →
    (entries.map Prod.fst).Nodup →
    (k, v) ∈ entries →
    v.isObjType = true →
    k ≠ "pattern" → k ≠ "required" → k ≠ "optional" →
    ∃ v', fixJson C (if k = "properties" then true else false) v = .ok v'
      ∧ alistGet final k = some v' := by
  induction entries with
  | nil => intro _ _ _ _ _ _ _ hmem; cases hmem
  | cons hd rest ih =>
    obtain ⟨k', v'⟩ := hd
    intro cur final req k v h hnd hmem hobj hk1 hk2 hk3
    simp only [List.map_cons, List.nodup_cons] at hnd
    rcases List.mem_cons.mp hmem with hh | hh
    · injection hh with h1 h2
      subst h1
      subst h2
      rw [fixEntries] at h
      rw [if_neg (by rintro ⟨_, hk⟩; exact hk1 hk)] at h
      rw [if_neg (by rintro ⟨_, hk⟩; exact hk2 hk)] at h
      rw [if_pos hobj] at h
      rw [if_neg (by rintro ⟨hk, _⟩; exact hk3 hk)] at h
      rw [show (if false = false ∧ k = "properties" then true else false)
            = (if k = "properties" then true else false) from by simp] at h
      cases hfix : fixJson C (if k = "properties" then true else false) v with
      | error e => rw [hfix] at h; cases h
      | ok w =>
        rw [hfix] at h
        refine ⟨w, rfl, ?_⟩
        have hpres := fixEntries_get_preserved C false rest k _ _ _ h
          (by intro hr; exact hnd.1 hr)
          (fun hko => absurd hko hk3)
        rw [hpres, alistGet_alistSet_self]
    · obtain ⟨cur', req', h'⟩ := fixEntries_cons_ok C false k' v' rest cur req final h
      exact ih cur' final req' k v h' hnd.2 hh hobj hk1 hk2 hk3

/-- With the special keys disabled (directly inside a `properties` map), a
non-object entry is left untouched. -/
theorem fixEntries_true_atom (C : String → Option String)
    (entries : List (String × Json)) :
    ∀ cur final k v req, fixEntries C true entries cur req = .ok final →
    (entries.map Prod.fst).Nodup →
    (k, v) ∈ entries →
    v.isObjType = false →
    alistGet final k = alistGet cur k := by
  induction entries with
  | nil => intro _ _ _ _ _ _ _ hmem; cases hmem
  | cons hd rest ih =>
    obtain ⟨k', v'⟩ := hd
    intro cur final k v req h hnd hmem hatom
    simp only [List.map_cons, List.nodup_cons] at hnd
    rw [fixEntries] at h
    rw [if_neg (by simp), if_neg (by simp)] at h
    rcases List.mem_cons.mp hmem with hh | hh
    · injection hh with h1 h2
      subst h1
      subst h2
      rw [if_neg (by rw [hatom]; simp)] at h
      exact fixEntries_get_preserved C true rest k _ _ _ h
        (by intro hr; exact hnd.1 hr)
        (fun _ => Or.inl rfl)
    · have hk'k : k' ≠ k := by
        intro he
        exact hnd.1 (he ▸ List.mem_map.mpr ⟨(k, v), hh, rfl⟩)
      by_cases hobj : v'.isObjType = true
      · rw [if_pos hobj] at h
        by_cases hskip : k' = "optional" ∧ req = true
        · rw [if_pos hskip] at h
          exact ih _ _ _ _ _ h hnd.2 hh hatom
        · rw [if_neg hskip] at h
          cases hfix : fixJson C (if true = false ∧ k' = "properties" then true else false) v' with
          | error e => rw [hfix] at h; cases h
          | ok w =>
            rw [hfix] at h
            rw [ih _ _ _ _ _ h hnd.2 hh hatom]
            exact alistGet_alistSet_ne _ _ _ _ hk'k
      · rw [if_neg hobj] at h
        exact ih _ _ _ _ _ h hnd.2 hh hatom

/-- With the special keys disabled, an object-valued entry (even one named
`pattern` or `required`) is recursed into as a schema with the special keys
re-enabled one level below. -/
theorem fixEntries_true_obj (C : String → Option String)
    (entries : List (String × Json)) :
    ∀ cur final k v, fixEntries C true entries cur false = .ok final →
    (entries.map Prod.fst).Nodup →
    (k, v) ∈ entries →
    v.isObjType = true →
    ∃ v', fixJson C false v = .ok v' ∧ alistGet final k = some v' := by
  induction entries with
  | nil => intro _ _ _ _ _ _ hmem; cases hmem
  | cons hd rest ih =>
    obtain ⟨k', v'⟩ := hd
    intro cur final k v h hnd hmem hobj
    simp only [List.map_cons, List.nodup_cons] at hnd
    rcases List.mem_cons.mp hmem with hh | hh
    · injection hh with h1 h2
      subst h1
      subst h2
      rw [fixEntries] at h
      rw [if_neg (by simp), if_neg (by simp), if_pos hobj, if_neg (by simp)] at h
      rw [show (if true = false ∧ k = "properties" then true else false) = false from by simp] at h
      cases hfix : fixJson C false v with
      | error e => rw [hfix] at h; cases h
      | ok w =>
        rw [hfix] at h
        refine ⟨w, rfl, ?_⟩
        have hpres := fixEntries_get_preserved C true rest k _ _ _ h
          (by intro hr; exact hnd.1 hr)
          (fun _ => Or.inl rfl)
        rw [hpres, alistGet_alistSet_self]
    · obtain ⟨cur', h'⟩ := fixEntries_true_cons_ok C k' v' rest cur final h
      exact ih cur' final k v h' hnd.2 hh hobj

theorem foldl_contStep_error {V : Type} (ys : List (V → ContResult V)) (e : JsThrown) :
    ys.foldl contStep (.error e) = .error e := by
  induction ys with
  | nil => rfl
  | cons c cs ih => simpa [contStep] using ih

theorem runChain_append {V : Type} (xs ys : List (V → ContResult V)) (init : V) :
    runChain (xs ++ ys) init = ys.foldl contStep (runChain xs init) := by
  simp [runChain, List.foldl_append]

theorem cbInv_scripts_foldl (scripts : List (Response → List ACall)) (a : Asserter)
    (res : Response) (h : cbInv a) :
    cbInv (scripts.foldl (fun s sc => s.runCalls (sc res)) a) := by
  induction scripts generalizing a with
  | nil => exact h
  | cons sc rest ih => exact ih _ (cbInv_runCalls _ _ h)

/-- C1: on a successful response, each registered evaluator is invoked exactly
once, in registration order, with the (accumulated) asserter and the
response; a failure recorded by one evaluator does not prevent later
evaluators from running (the event trace is the full evaluator sequence for
every choice of evaluator scripts, including failing ones); and after the
last evaluator the asserter's completion signal fires exactly once. -/
theorem evaluators_run_in_order_then_done (url : String)
    (scripts : List (Response → List ACall)) (a : Asserter) (res : Response)
    (hf : a.finished = false) (hc : a.cbCount = 0) :
    (processOutcome url (scripts.map scriptEval) (.ok res) a).2
        = (List.range scripts.length).map EngineEvent.evalCall ++ [EngineEvent.doneSignal]
      ∧ (processOutcome url (scripts.map scriptEval) (.ok res) a).1
        = (scripts.foldl (fun s sc => s.runCalls (sc res)) a).done
      ∧ (processOutcome url (scripts.map scriptEval) (.ok res) a).1.cbCount = 1 := by
  have hpo : processOutcome url (scripts.map scriptEval) (.ok res) a
      = finalize (scripts.map scriptEval) a res := rfl
  have hstate : (finalize (scripts.map scriptEval) a res).1
      = (scripts.foldl (fun s sc => s.runCalls (sc res)) a).done := by
    rw [finalize_state, List.foldl_map]
    rfl
  refine ⟨?_, ?_, ?_⟩
  · rw [hpo, finalize_trace, List.length_map]
  · rw [hpo, hstate]
  · rw [hpo, hstate]
    refine cbInv_done _ (cbInv_scripts_foldl _ _ _ ?_)
    simp [cbInv, hf, hc]

/-- C2: if the continuations up to position `k` succeed and continuation `k`
throws (or returns a rejecting deferred / failing nested test case), then
the continuations after `k` are never invoked (the chain result does not
depend on them), the run records exactly one failure whose text carries the
thrown value's message, and the completion signal still fires exactly
once. -/
theorem chain_short_circuit {V : Type} (conts : List (V → ContResult V)) (k : Nat)
    (hk : k < conts.length) (init v : V) (e : JsThrown) (a : Asserter)
    (hpre : runChain (conts.take k) init = .ok v)
    (hthrow : contStep (.ok v) conts[k] = .error e)
    (hf : a.finished = false) (hc : a.cbCount = 0) :
    (∀ tail, runChain (conts.take (k + 1) ++ tail) init = .error e)
      ∧ runChain conts init = .error e
      ∧ (settleDone (runChain conts init) a).errors = a.errors ++ [e.failText]
      ∧ (∃ p q, e.failText = p ++ e.messageText ++ q)
      ∧ (settleDone (runChain conts init) a).cbCount = 1 := by
  have htake : runChain (conts.take (k + 1)) init = .error e := by
    rw [List.take_succ, List.getElem?_eq_getElem hk]
    rw [runChain_append]
    simp only [Option.toList_some, List.foldl_cons, List.foldl_nil]
    rw [hpre]
    exact hthrow
  have hall : ∀ tail, runChain (conts.take (k + 1) ++ tail) init = .error e := by
    intro tail
    rw [runChain_append, htake, foldl_contStep_error]
  have hfull : runChain conts init = .error e := by
    have := hall (conts.drop (k + 1))
    rwa [List.take_append_drop] at this
  refine ⟨hall, hfull, ?_, ?_, ?_⟩
  · rw [hfull]
    simp [settleDone, Asserter.pushLog, Asserter.fail, Asserter.done, hf]
  · cases e with
    | errObj m suf =>
      exact ⟨"Error: ", suf, by
        simp [JsThrown.failText, JsThrown.messageText, String.append_assoc]⟩
    | strVal s =>
      exact ⟨"", "", by simp [JsThrown.failText, JsThrown.messageText]⟩
  · rw [hfull]
    simp [settleDone, Asserter.pushLog, Asserter.fail, Asserter.done, hf, hc]

/-- C4: a network-level failure of the request records exactly one failure
whose message contains the test's URL and the underlying error message, runs
no evaluators, and still invokes the asserter's completion signal exactly
once. -/
theorem network_failure_single_fail (url emsg : String) (evals : List Evaluator)
    (a : Asserter) (hf : a.finished = false) (hc : a.cbCount = 0) :
    (processOutcome url evals (.error emsg) a).1.errors
        = a.errors ++ ["Request for " ++ url ++ " failed. " ++ emsg]
      ∧ (∃ p q, "Request for " ++ url ++ " failed. " ++ emsg = p ++ url ++ q)
      ∧ (∃ p, "Request for " ++ url ++ " failed. " ++ emsg = p ++ emsg)
      ∧ (processOutcome url evals (.error emsg) a).2 = []
      ∧ (processOutcome url evals (.error emsg) a).1.cbCount = 1 := by
  refine ⟨?_, ⟨"Request for ", " failed. " ++ emsg, ?_⟩, ⟨"Request for " ++ url ++ " failed. ", rfl⟩, rfl, ?_⟩
  · simp [processOutcome, Asserter.fail, Asserter.done, hf]
  · simp [String.append_assoc]
  · simp [processOutcome, Asserter.fail, Asserter.done, hf, hc]

/-- C8: invoking `run` with no asserter bound raises the configuration error
synchronously; no request is dispatched (and, the error path returning
before any asserter interaction, no failure is recorded through the asserter
surface). -/
theorem run_requires_asserter (tc : TestCase) (h : tc.asserter = none) :
    tc.run = .error "No asserter object has been configured"
      ∧ ∀ req, tc.run ≠ .ok req := by
  constructor
  · rw [TestCase.run, h]
  · intro req hcontra
    rw [TestCase.run, h] at hcontra
    cases hcontra

/-- C9: on one asserter, a second `done()`/`fail()` call after either has been
called once has no observable effect (state equality), the completion
callback fires exactly once — on the first call —, and a prior `fail()` does
not prevent later boolean assertions from recording their errors. -/
theorem asserter_done_fail_idempotent (a : Asserter) (m m2 e : String)
    (hf : a.finished = false) :
    (a.fail m).fail m2 = a.fail m
      ∧ (a.fail m).done = a.fail m
      ∧ a.done.done = a.done
      ∧ a.done.fail m = a.done
      ∧ (a.fail m).cbCount = a.cbCount + 1
      ∧ a.done.cbCount = a.cbCount + 1
      ∧ ((a.fail m).assertRecord false e).errors = (a.fail m).errors ++ [e] := by
  refine ⟨?_, ?_, ?_, ?_, ?_, ?_, ?_⟩ <;>
    simp [Asserter.fail, Asserter.done, Asserter.assertRecord, hf]

/-- C10: the HTTPS client library is selected solely by the resolved port
being 443, the port defaulting to 443 for the `https:` scheme and 80
otherwise: an https URL with an explicit port other than 443 is requested
with the plain-HTTP library, and any URL whose port resolves to 443 is
requested with the HTTPS library regardless of scheme. -/
theorem https_selected_by_port (tc : TestCase) (a : Asserter)
    (ha : tc.asserter = some a) :
    ∃ req, tc.run = .ok req
      ∧ req.port = (match tc.url.port with
          | some p => p
          | none => if tc.url.protocol = "https:" then 443 else 80)
      ∧ (req.useHttps = true ↔ req.port = 443)
      ∧ (∀ p, tc.url.port = some p → p ≠ 443 → req.useHttps = false)
      ∧ (tc.url.port = none → tc.url.protocol = "https:" → req.useHttps = true) := by
  rw [TestCase.run, ha]
  refine ⟨_, rfl, rfl, ?_, ?_, ?_⟩
  · simp
  · intro p hp hp443
    simp [hp, hp443]
  · intro hp hproto
    simp [hp, hproto]

theorem string_drop_append (a b : String) : (a ++ b).drop a.length = b := by
  apply String.ext
  simp [String.data_drop]

theorem string_append_ne_empty_left (a b : String) (h : a ≠ "") : a ++ b ≠ "" := by
  intro hc
  apply h
  have hlen := congrArg String.length hc
  simp [String.length_append] at hlen
  apply String.ext
  have hbridge : a.length = a.data.length := rfl
  have hdl : a.data.length = 0 := by omega
  exact List.length_eq_zero.mp hdl

/-- C3 counterexample: with an explicit `Cookie` header set to the empty
string and one cookie in the cookie map, `getHeaders` synthesizes a `Cookie`
header even though an explicit one was set, and the explicit value is not
preserved — refuting the claim as stated (the guard is truthiness of the
header value, not its presence). -/
theorem getHeaders_explicit_cookie_counterexample :
    alistGet ((Options.init.withHeader "Cookie" "").withCookie "a" "b").headers "Cookie"
        = some ""
      ∧ alistGet ((Options.init.withHeader "Cookie" "").withCookie "a" "b").getHeaders "Cookie"
        = some "a=b"
      ∧ some "a=b" ≠ some ("" : String) := by
  refine ⟨rfl, rfl, by decide⟩

/-- C3 (amended): `getHeaders` returns a fresh map containing a synthesized
`Cookie` header (the cookies' `name=value` pairs joined by `"; "`) iff at
least one cookie is set and the explicit `Cookie` header entry is falsy
(absent or the empty string); whenever the explicit `Cookie` header has a
non-empty value — and likewise when no cookie is set — the explicit header
map is returned unchanged. -/
theorem getHeaders_cookie_synthesis (o : Options) :
    (jsTruthyStr (alistGet o.headers "Cookie") = true → o.getHeaders = o.headers)
      ∧ (jsTruthyStr (alistGet o.headers "Cookie") = false → o.cookies.entries = [] →
          o.getHeaders = o.headers)
      ∧ (jsTruthyStr (alistGet o.headers "Cookie") = false → o.cookies.entries ≠ [] →
          alistGet o.getHeaders "Cookie"
              = some (String.intercalate "; "
                  (o.cookies.entries.map (fun p => p.1 ++ "=" ++ p.2)))
            ∧ ∀ k, k ≠ "Cookie" → alistGet o.getHeaders k = alistGet o.headers k) := by
  refine ⟨?_, ?_, ?_⟩
  · intro ht
    simp [Options.getHeaders, ht]
  · intro ht hce
    simp [Options.getHeaders, ht, hce]
  · intro ht hce
    have hne : (o.cookies.entries.map (fun p => p.1 ++ "=" ++ p.2)).isEmpty = false := by
      simp [List.isEmpty_iff, hce]
    refine ⟨?_, ?_⟩
    · simp [Options.getHeaders, ht, hne, alistGet_alistSet_self]
    · intro k hkc
      simp only [Options.getHeaders, ht, Bool.false_eq_true, if_false, hne]
      exact alistGet_alistSet_ne _ _ _ _ (fun he => hkc he.symm)

/-- C7: `newTestCase` copies the template state by assignment, but the cookie
step calls `this._cookies.concat()` on the plain-object cookie map created
by the `Options` constructor — a TypeError, so no test case is produced for
any template built through the constructor (with or without cookies),
contradicting the spec's copy semantics and the repository's own template
tests. -/
theorem newTestCase_cookie_concat_crash :
    (∀ (t : Options) (u : ParsedUrl) (s : String) (es : List (String × String)),
        t.cookies = .objStore es →
        newTestCase t u s = .error "TypeError: this._cookies.concat is not a function")
      ∧ Options.init.cookies = .objStore []
      ∧ (∀ (o : Options) (n v : String) (es : List (String × String)),
          o.cookies = .objStore es →
          ∃ es2, (o.withCookie n v).cookies = .objStore es2) := by
  refine ⟨?_, rfl, ?_⟩
  · intro t u s es h
    rw [newTestCase, h]
    rfl
  · intro o n v es h
    exact ⟨alistSet es n v, by rw [Options.withCookie, h]; rfl⟩

/-- C5: each failure mode of the `validateJson` evaluator — unreadable schema
file, unparseable schema JSON, empty response body, unparseable response
body — records exactly one descriptive failure and returns early; the
configured XSSI prefix is stripped from the body before parsing; one-or-more
validator violations produce exactly one failure whose message is the header
followed by one `Error @ /<path>: <message>` entry per violation in
validator-reported order (joined by spaces); and the engine still runs the
evaluators that follow. -/
theorem validateJson_failure_modes
    (parseJson : String → Except String Json)
    (C : String → Option String)
    (validate : List (String × Json) → Json → Json → List VErr)
    (m : List (String × Json)) (xp sp : String)
    (test : Asserter) (res : Response) (hf : test.finished = false) :
    (validateJsonEval none parseJson C validate m xp sp test res).errors
        = test.errors ++ ["Invalid JSON Schema. Unable to open file: " ++ sp]
      ∧ (∀ f e, parseJson f = .error e →
          (validateJsonEval (some f) parseJson C validate m xp sp test res).errors
            = test.errors ++ ["Invalid JSON Schema. JSON parsing failed.  " ++ e])
      ∧ (∀ f sj schema, parseJson f = .ok sj → fixJson C false sj = .ok schema →
          jsFalsyBody res.body = true →
          (validateJsonEval (some f) parseJson C validate m xp sp test res).errors
            = test.errors ++ ["Expected response body for JSON validation."])
      ∧ (∀ f sj schema rest2 e2, parseJson f = .ok sj → fixJson C false sj = .ok schema →
          res.body = some (xp ++ rest2) → xp ≠ "" →
          parseJson rest2 = .error e2 →
          (validateJsonEval (some f) parseJson C validate m xp sp test res).errors
            = test.errors ++ ["Invalid response body. JSON parsing failed.  " ++ e2])
      ∧ (∀ f sj schema rest2 json errs, parseJson f = .ok sj → fixJson C false sj = .ok schema →
          res.body = some (xp ++ rest2) → xp ≠ "" →
          parseJson rest2 = .ok json →
          validate m json schema = errs → errs ≠ [] →
          (validateJsonEval (some f) parseJson C validate m xp sp test res).errors
            = test.errors ++ [String.intercalate " "
                ("Invalid response body. JSON Schema validation failed."
                  :: errs.map (fun er => "  Error @ /" ++ er.path ++ ": " ++ er.message))])
      ∧ (∀ f sj schema rest2 json, parseJson f = .ok sj → fixJson C false sj = .ok schema →
          res.body = some (xp ++ rest2) → xp ≠ "" →
          parseJson rest2 = .ok json →
          validate m json schema = [] →
          validateJsonEval (some f) parseJson C validate m xp sp test res = test)
      ∧ (∀ (fr : Option String) (pre post : List Evaluator) (a : Asserter) (r : Response),
          (finalize (pre ++ validateJsonEval fr parseJson C validate m xp sp :: post) a r).2
            = (List.range (pre.length + 1 + post.length)).map EngineEvent.evalCall
                ++ [EngineEvent.doneSignal]) := by
  refine ⟨?_, ?_, ?_, ?_, ?_, ?_, ?_⟩
  · simp [validateJsonEval, Asserter.fail, hf]
  · intro f e hpf
    simp [validateJsonEval, hpf, Asserter.fail, hf]
  · intro f sj schema hpf hfix hb
    simp [validateJsonEval, hpf, hfix, hb, Asserter.fail, hf]
  · intro f sj schema rest2 e2 hpf hfix hbody hxp hp2
    have hne : xp ++ rest2 ≠ "" := string_append_ne_empty_left _ _ hxp
    have hfalsy : jsFalsyBody res.body = false := by
      rw [hbody]
      simp [jsFalsyBody, hne]
    simp [validateJsonEval, hpf, hfix, hfalsy, hbody, hxp, string_drop_append, hp2,
      jsFalsyBody, hne, Asserter.fail, hf]
  · intro f sj schema rest2 json errs hpf hfix hbody hxp hp2 hveq herrs
    have hne : xp ++ rest2 ≠ "" := string_append_ne_empty_left _ _ hxp
    have hfalsy : jsFalsyBody res.body = false := by
      rw [hbody]
      simp [jsFalsyBody, hne]
    have hisE : errs.isEmpty = false := by
      simp [List.isEmpty_iff, herrs]
    simp [validateJsonEval, hpf, hfix, hfalsy, hbody, hxp, string_drop_append, hp2, hveq,
      hisE, validationFailureMessage, jsFalsyBody, hne, Asserter.fail, hf]
  · intro f sj schema rest2 json hpf hfix hbody hxp hp2 hveq
    have hne : xp ++ rest2 ≠ "" := string_append_ne_empty_left _ _ hxp
    have hfalsy : jsFalsyBody res.body = false := by
      rw [hbody]
      simp [jsFalsyBody, hne]
    simp [validateJsonEval, hpf, hfix, hfalsy, hbody, hxp, string_drop_append, hp2, hveq,
      jsFalsyBody, hne]
  · intro fr pre post a r
    rw [finalize_trace]
    have hlen : (pre ++ validateJsonEval fr parseJson C validate m xp sp :: post).length
        = pre.length + 1 + post.length := by
      simp [List.length_append, List.length_cons]
      omega
    rw [hlen]

theorem fixJson_obj_ok2 (C : String → Option String) (ign : Bool)
    (fields out : List (String × Json))
    (h : fixJson C ign (Json.obj fields) = .ok (Json.obj out)) :
    fixEntries C ign fields fields false = .ok out := by
  obtain ⟨out', heq, hfe⟩ := fixJson_obj_ok C ign fields _ h
  injection heq with h1
  rw [h1]
  exact hfe

/-- C6: the pre-validation normalization (a) compiles a string-valued
top-level `pattern` into a regular-expression object, recording the explicit
failure and aborting when compilation fails; (b) translates a boolean
`required` into `optional = !required`; and (c) does not treat keys directly
inside a `properties` map as special (an atom-valued property named
`pattern` or `required` is untouched and no `optional` key is synthesized
there), while object-valued entries below `properties` are normalized again
with the special keys re-enabled. -/
theorem fixSchema_normalization (C : String → Option String) :
    (∀ (fields out : List (String × Json)) (s r : String),
        (fields.map Prod.fst).Nodup →
        ("pattern", Json.str s) ∈ fields →
        C s = some r →
        fixJson C false (Json.obj fields) = .ok (Json.obj out) →
        alistGet out "pattern" = some (.regexp r))
      ∧ (∀ (rest : List (String × Json)) (s : String), C s = none →
          fixJson C false (Json.obj (("pattern", Json.str s) :: rest))
            = .error ("Unable to create a regular expression for pattern " ++ s))
      ∧ (∀ (fields out : List (String × Json)) (b : Bool),
          (fields.map Prod.fst).Nodup →
          ("required", Json.bool b) ∈ fields →
          fixJson C false (Json.obj fields) = .ok (Json.obj out) →
          alistGet out "optional" = some (.bool (!b)))
      ∧ (∀ (fields out pf : List (String × Json)),
          (fields.map Prod.fst).Nodup →
          ("properties", Json.obj pf) ∈ fields →
          fixJson C false (Json.obj fields) = .ok (Json.obj out) →
          ∃ pfOut, fixJson C true (Json.obj pf) = .ok (Json.obj pfOut)
            ∧ alistGet out "properties" = some (Json.obj pfOut))
      ∧ (∀ (pf pfOut : List (String × Json)) (k : String) (v : Json),
          (pf.map Prod.fst).Nodup →
          (k, v) ∈ pf → v.isObjType = false →
          fixJson C true (Json.obj pf) = .ok (Json.obj pfOut) →
          alistGet pfOut k = some v)
      ∧ (∀ (pf pfOut : List (String × Json)),
          "optional" ∉ pf.map Prod.fst →
          fixJson C true (Json.obj pf) = .ok (Json.obj pfOut) →
          alistGet pfOut "optional" = none)
      ∧ (∀ (pf pfOut : List (String × Json)) (k : String) (v : Json),
          (pf.map Prod.fst).Nodup →
          (k, v) ∈ pf → v.isObjType = true →
          fixJson C true (Json.obj pf) = .ok (Json.obj pfOut) →
          ∃ v', fixJson C false v = .ok v' ∧ alistGet pfOut k = some v') := by
  refine ⟨?_, ?_, ?_, ?_, ?_, ?_, ?_⟩
  · intro fields out s r hnd hmem hC h
    exact fixEntries_pattern_mem C fields _ _ _ s r (fixJson_obj_ok2 C false fields out h)
      hnd hmem hC
  · intro rest s hC
    rw [fixJson]
    rw [show fixEntries C false (("pattern", Json.str s) :: rest)
          (("pattern", Json.str s) :: rest) false
        = .error ("Unable to create a regular expression for pattern " ++ s) from ?_]
    · rfl
    · rw [fixEntries, if_pos ⟨rfl, rfl⟩]
      simp [compilePattern, jsToString, hC]
  · intro fields out b hnd hmem h
    exact fixEntries_required_mem C fields _ _ _ b (fixJson_obj_ok2 C false fields out h)
      hnd hmem
  · intro fields out pf hnd hmem h
    obtain ⟨v', hfix', hget⟩ := fixEntries_obj_entry C fields _ _ _ "properties"
      (Json.obj pf) (fixJson_obj_ok2 C false fields out h) hnd hmem rfl
      (by decide) (by decide) (by decide)
    rw [if_pos rfl] at hfix'
    obtain ⟨pfOut, hveq, _⟩ := fixJson_obj_ok C true pf v' hfix'
    exact ⟨pfOut, by rw [← hveq]; exact hfix', by rw [← hveq]; exact hget⟩
  · intro pf pfOut k v hnd hmem hatom h
    have hfe := fixJson_obj_ok2 C true pf pfOut h
    rw [fixEntries_true_atom C pf _ _ k v false hfe hnd hmem hatom]
    exact alistGet_of_mem pf k v hmem hnd
  · intro pf pfOut hopt h
    have hfe := fixJson_obj_ok2 C true pf pfOut h
    rw [fixEntries_get_preserved C true pf "optional" _ _ _ hfe hopt
      (fun _ => Or.inl rfl)]
    exact alistGet_eq_none pf "optional" hopt
  · intro pf pfOut k v hnd hmem hobj h
    exact fixEntries_true_obj C pf _ _ k v (fixJson_obj_ok2 C true pf pfOut h)
      hnd hmem hobj

/-- Witness for C1 at a concrete failing script list and fresh asserter. -/
theorem evaluators_run_in_order_then_done_witness :
    Asserter.init.finished = false
      ∧ Asserter.init.cbCount = 0
      ∧ ((processOutcome "http://falkor.fake/" (wScripts.map scriptEval) (.ok wRes) Asserter.init).2
            = (List.range wScripts.length).map EngineEvent.evalCall ++ [EngineEvent.doneSignal]
          ∧ (processOutcome "http://falkor.fake/" (wScripts.map scriptEval) (.ok wRes)
                Asserter.init).1
            = (wScripts.foldl (fun s sc => s.runCalls (sc wRes)) Asserter.init).done
          ∧ (processOutcome "http://falkor.fake/" (wScripts.map scriptEval) (.ok wRes)
                Asserter.init).1.cbCount = 1) :=
  ⟨rfl, rfl,
    evaluators_run_in_order_then_done "http://falkor.fake/" wScripts Asserter.init wRes rfl rfl⟩

/-- Witness for C2 at a concrete chain whose second continuation throws. -/
theorem chain_short_circuit_witness :
    runChain (wConts.take 2 ++ [fun n => ContResult.value n]) 0 = .error (.strVal "boom")
      ∧ runChain wConts 0 = .error (.strVal "boom")
      ∧ (settleDone (runChain wConts 0) Asserter.init).errors
          = Asserter.init.errors ++ [(JsThrown.strVal "boom").failText]
      ∧ (settleDone (runChain wConts 0) Asserter.init).cbCount = 1 := by
  have h := chain_short_circuit wConts 1 (by decide) 0 1 (JsThrown.strVal "boom")
    Asserter.init rfl rfl rfl rfl
  exact ⟨h.1 [fun n => ContResult.value n], h.2.1, h.2.2.1, h.2.2.2.2⟩

/-- Witness for the amended C3 at an option set with one cookie and no
explicit headers. -/
theorem getHeaders_cookie_synthesis_witness :
    jsTruthyStr (alistGet wCookieOpts.headers "Cookie") = false
      ∧ wCookieOpts.cookies.entries ≠ []
      ∧ alistGet wCookieOpts.getHeaders "Cookie"
          = some (String.intercalate "; "
              (wCookieOpts.cookies.entries.map (fun p => p.1 ++ "=" ++ p.2)))
      ∧ alistGet wCookieOpts.getHeaders "Accept" = alistGet wCookieOpts.headers "Accept" := by
  have h := (getHeaders_cookie_synthesis wCookieOpts).2.2 rfl (by decide)
  exact ⟨rfl, by decide, h.1, h.2 "Accept" (by decide)⟩

/-- Witness for C4 at a concrete unreachable-host failure. -/
theorem network_failure_single_fail_witness :
    Asserter.init.finished = false
      ∧ Asserter.init.cbCount = 0
      ∧ ((processOutcome "http://www.xtz.comx" [] (.error "getaddrinfo ENOTFOUND")
              Asserter.init).1.errors
            = Asserter.init.errors
                ++ ["Request for " ++ "http://www.xtz.comx" ++ " failed. "
                      ++ "getaddrinfo ENOTFOUND"]
          ∧ (∃ p q, "Request for " ++ "http://www.xtz.comx" ++ " failed. "
                ++ "getaddrinfo ENOTFOUND" = p ++ "http://www.xtz.comx" ++ q)
          ∧ (∃ p, "Request for " ++ "http://www.xtz.comx" ++ " failed. "
                ++ "getaddrinfo ENOTFOUND" = p ++ "getaddrinfo ENOTFOUND")
          ∧ (processOutcome "http://www.xtz.comx" [] (.error "getaddrinfo ENOTFOUND")
                Asserter.init).2 = []
          ∧ (processOutcome "http://www.xtz.comx" [] (.error "getaddrinfo ENOTFOUND")
                Asserter.init).1.cbCount = 1) :=
  ⟨rfl, rfl,
    network_failure_single_fail "http://www.xtz.comx" "getaddrinfo ENOTFOUND" []
      Asserter.init rfl rfl⟩

/-- Witness for C5, exercising the unreadable-file, bad-schema-JSON and
violation modes at concrete inputs (with XSSI prefix stripping). -/
theorem validateJson_failure_modes_witness :
    Asserter.init.finished = false
      ∧ (validateJsonEval none wParse wCompile wValidate [] "P;" "x.schema"
            Asserter.init wRes5).errors
          = Asserter.init.errors ++ ["Invalid JSON Schema. Unable to open file: " ++ "x.schema"]
      ∧ (validateJsonEval (some "NOTJSON") wParse wCompile wValidate [] "P;" "x.schema"
            Asserter.init wRes5).errors
          = Asserter.init.errors ++ ["Invalid JSON Schema. JSON parsing failed.  "
              ++ "Unexpected token"]
      ∧ (validateJsonEval (some "JSONBODY") wParse wCompile wValidate [] "P;" "x.schema"
            Asserter.init wRes5).errors
          = Asserter.init.errors ++ [String.intercalate " "
              ("Invalid response body. JSON Schema validation failed."
                :: [({ path := "account.id", message := "Property is required" } : VErr)].map
                    (fun er => "  Error @ /" ++ er.path ++ ": " ++ er.message))] := by
  have h := validateJson_failure_modes wParse wCompile wValidate [] "P;" "x.schema"
    Asserter.init wRes5 rfl
  refine ⟨rfl, h.1, ?_, ?_⟩
  · exact h.2.1 "NOTJSON" "Unexpected token" (by simp [wParse])
  · exact h.2.2.2.2.1 "JSONBODY" (Json.obj []) (Json.obj []) "JSONBODY" (Json.obj [])
      [{ path := "account.id", message := "Property is required" }]
      (by simp [wParse]) (by simp [fixJson, fixEntries]) rfl (by decide)
      (by simp [wParse]) rfl (by simp)

/-- Witness for C6 at concrete schemas: a compiling pattern, a failing
pattern, a boolean `required`, untouched keys directly inside `properties`,
no synthesized `optional` there, and a normalized object nested below a
property. -/
theorem fixSchema_normalization_witness :
    alistGet [("pattern", Json.regexp "ab")] "pattern" = some (Json.regexp "ab")
      ∧ fixJson wCompile false (Json.obj [("pattern", Json.str "[")])
          = .error ("Unable to create a regular expression for pattern " ++ "[")
      ∧ alistGet [("required", Json.bool true), ("optional", Json.bool false)] "optional"
          = some (Json.bool (!true))
      ∧ (∃ pfOut, fixJson wCompile true (Json.obj [("pattern", Json.str "xy")])
            = .ok (Json.obj pfOut)
          ∧ alistGet [("properties", Json.obj [("pattern", Json.str "xy")])] "properties"
            = some (Json.obj pfOut))
      ∧ alistGet [("pattern", Json.str "xy")] "pattern" = some (Json.str "xy")
      ∧ alistGet [("pattern", Json.str "xy")] "optional" = none
      ∧ (∃ v', fixJson wCompile false (Json.obj [("required", Json.bool false)]) = .ok v'
          ∧ alistGet [("inner", Json.obj [("required", Json.bool false), ("optional", Json.bool true)])]
              "inner" = some v') := by
  have h := fixSchema_normalization wCompile
  refine ⟨?_, ?_, ?_, ?_, ?_, ?_, ?_⟩
  · exact h.1 [("pattern", Json.str "ab")] [("pattern", Json.regexp "ab")] "ab" "ab"
      (by simp) (by simp) (by simp [wCompile])
      (by simp [fixJson, fixEntries, compilePattern, jsToString, wCompile, alistSet])
  · exact h.2.1 [] "[" (by simp [wCompile])
  · exact h.2.2.1 [("required", Json.bool true)]
      [("required", Json.bool true), ("optional", Json.bool false)] true
      (by simp) (by simp) (by simp [fixJson, fixEntries, Json.truthy, alistSet])
  · exact h.2.2.2.1 [("properties", Json.obj [("pattern", Json.str "xy")])]
      [("properties", Json.obj [("pattern", Json.str "xy")])] [("pattern", Json.str "xy")]
      (by simp) (by simp)
      (by simp [fixJson, fixEntries, Json.isObjType, alistSet])
  · exact h.2.2.2.2.1 [("pattern", Json.str "xy")] [("pattern", Json.str "xy")]
      "pattern" (Json.str "xy") (by simp) (by simp) rfl
      (by simp [fixJson, fixEntries, Json.isObjType])
  · exact h.2.2.2.2.2.1 [("pattern", Json.str "xy")] [("pattern", Json.str "xy")]
      (by simp) (by simp [fixJson, fixEntries, Json.isObjType])
  · exact h.2.2.2.2.2.2 [("inner", Json.obj [("required", Json.bool false)])]
      [("inner", Json.obj [("required", Json.bool false), ("optional", Json.bool true)])]
      "inner" (Json.obj [("required", Json.bool false)]) (by simp) (by simp) rfl
      (by simp [fixJson, fixEntries, Json.isObjType, Json.truthy, alistSet])

/-- Witness for C7 at a concrete template carrying one cookie. -/
theorem newTestCase_cookie_concat_crash_witness :
    newTestCase (Options.init.withCookie "username" "dan") wUrl "http://falkor.fake/templated"
      = .error "TypeError: this._cookies.concat is not a function" :=
  newTestCase_cookie_concat_crash.1 (Options.init.withCookie "username" "dan") wUrl
    "http://falkor.fake/templated" (alistSet [] "username" "dan") rfl

/-- Witness for C8 at a concrete test case with no asserter bound. -/
theorem run_requires_asserter_witness :
    wTCnoAssert.asserter = none
      ∧ wTCnoAssert.run = .error "No asserter object has been configured"
      ∧ wTCnoAssert.run ≠ .ok wReq :=
  ⟨rfl, (run_requires_asserter wTCnoAssert rfl).1,
    (run_requires_asserter wTCnoAssert rfl).2 wReq⟩

/-- Witness for C9 at a fresh asserter. -/
theorem asserter_done_fail_idempotent_witness :
    (Asserter.init.fail "m1").fail "m2" = Asserter.init.fail "m1"
      ∧ (Asserter.init.fail "m1").done = Asserter.init.fail "m1"
      ∧ Asserter.init.done.done = Asserter.init.done
      ∧ Asserter.init.done.fail "m1" = Asserter.init.done
      ∧ (Asserter.init.fail "m1").cbCount = Asserter.init.cbCount + 1
      ∧ Asserter.init.done.cbCount = Asserter.init.cbCount + 1
      ∧ ((Asserter.init.fail "m1").assertRecord false "e").errors
          = (Asserter.init.fail "m1").errors ++ ["e"] :=
  asserter_done_fail_idempotent Asserter.init "m1" "m2" "e" rfl

/-- Witness for C10 at a concrete https URL with explicit port 8443: the
plain-HTTP library is selected. -/
theorem https_selected_by_port_witness :
    ∃ req, wTChttps.run = .ok req ∧ req.useHttps = false ∧ req.port = 8443 := by
  obtain ⟨req, hrun, hport, hiff, hexp, hdef⟩ := https_selected_by_port wTChttps
    Asserter.init rfl
  exact ⟨req, hrun, hexp 8443 rfl (by decide), by rw [hport]; rfl⟩
